import Mathlib

set_option maxRecDepth 16000

namespace AllForkedRepos

/-!
Verification development for the fork-mirror synchronization scripts
(update_subtrees.py, manage_forks.py, generate_forks_json.py,
sync_forks.py).  The scripts are shallowly embedded: Python strings are
modelled over their character lists, the filesystem and the git working
tree as association lists from component paths to contents, the behaviour
of the external git and GitHub collaborators as an explicit oracle, and
every git invocation as an element of an emitted command trace.
-/

/-! ### String primitives

All string operations used by the scripts are modelled over the underlying
character lists, so every definition is executable and reduces in the
kernel. -/

/-- Characters of the first list split at `sep` with empty pieces dropped
(the second list is the accumulator of the piece being read, reversed).
Models the Python idiom `[p for p in s.split(sep) if p]`. -/
def splitDropEmpty (sep : Char) : List Char → List Char → List String
  | [], acc => if acc = [] then [] else [String.mk acc.reverse]
  | c :: cs, acc =>
    if c = sep then
      if acc = [] then splitDropEmpty sep cs []
      else String.mk acc.reverse :: splitDropEmpty sep cs []
    else splitDropEmpty sep cs (c :: acc)

/-- Nonempty slash-separated components of a string. -/
def slashParts (s : String) : List String := splitDropEmpty '/' s.data []

/-- Everything before the first occurrence of `c`. -/
def takeUntilChar (c : Char) (l : List Char) : List Char :=
  l.takeWhile (fun a => a != c)

/-- Drops through the first occurrence of the pattern and returns what
follows it, or none when the pattern does not occur. -/
def afterSubstring (pat : List Char) : List Char → Option (List Char)
  | [] => none
  | c :: cs =>
    if pat.isPrefixOf (c :: cs) then some ((c :: cs).drop pat.length)
    else afterSubstring pat cs

/-- Path component of a URL, modelling urlparse(url).path for the URL
shapes stored in migrate_to: the fragment (after the first hash sign) and
the query (after the first question mark) are stripped; for a
scheme://host/path shape the path starts at the first slash after the
host; a string without the scheme separator is treated as already being a
bare path. -/
def urlPath (url : String) : String :=
  let noFrag := takeUntilChar '#' url.data
  let noQuery := takeUntilChar '?' noFrag
  match afterSubstring ("://".data) noQuery with
  | some rest => String.mk (rest.dropWhile (fun a => a != '/'))
  | none => String.mk noQuery

/-- First index of `target` in the list, modelling Python list.index
(none models the ValueError branch). -/
def firstIdx (target : String) : List String → Option Nat
  | [] => none
  | x :: xs => if x = target then some 0 else (firstIdx target xs).map (fun i => i + 1)

/-- Join with a separator, modelling str.join. -/
def joinParts (sep : String) : List String → String
  | [] => ""
  | [x] => x
  | x :: y :: xs => x ++ sep ++ joinParts sep (y :: xs)

/-! ### The registry record of forks.json (update_subtrees.py) -/

/-- One record of forks.json (class ForkEntry in update_subtrees.py). -/
structure ForkEntry where
  name : String
  upstream : String
  default_branch : String
  migrate_to : String
deriving DecidableEq

/-- The upstream_url property of ForkEntry. -/
def upstreamUrl (e : ForkEntry) : String :=
  "https://github.com/" ++ e.upstream ++ ".git"

/-- Nonempty components of the URL path of a migrate_to value
(`[p for p in parsed.path.split("/") if p]`). -/
def pathParts (migrate_to : String) : List String :=
  slashParts (urlPath migrate_to)

/-- The `prefix` property of ForkEntry (update_subtrees.py lines 37-48):
the components of migrate_to's URL path after the first
all_forked_repositories component (all of them when that component is
absent), joined with slashes; the ValueError raised when no components
remain is modelled as an error value. -/
def ForkEntry.prefixPath (e : ForkEntry) : Except String String :=
  let parts := pathParts e.migrate_to
  let kept := match firstIdx "all_forked_repositories" parts with
    | some i => parts.drop (i + 1)
    | none => parts
  if kept = [] then
    Except.error ("Cannot derive prefix from migrate_to=" ++ e.migrate_to)
  else Except.ok (joinParts "/" kept)

/-- True exactly on the ok constructor (the derivation did not raise). -/
def exceptOk : Except String String → Bool
  | Except.ok _ => true
  | Except.error _ => false

instance : DecidableEq (Except String String) := fun x y =>
  match x, y with
  | Except.ok a, Except.ok b =>
    if h : a = b then isTrue (by rw [h]) else isFalse (by simp [h])
  | Except.error a, Except.error b =>
    if h : a = b then isTrue (by rw [h]) else isFalse (by simp [h])
  | Except.ok _, Except.error _ => isFalse (by simp)
  | Except.error _, Except.ok _ => isFalse (by simp)

theorem firstIdx_eq_none (t : String) : ∀ l : List String, t ∉ l → firstIdx t l = none := by
  intro l h
  induction l with
  | nil => rfl
  | cons x xs ih =>
    have hx : ¬ x = t := by
      intro hxt
      exact h (by simp [hxt])
    have hxs : t ∉ xs := fun hm => h (List.mem_cons_of_mem _ hm)
    simp [firstIdx, hx, ih hxs]

theorem firstIdx_append (t : String) (pre suf : List String) (h : t ∉ pre) :
    firstIdx t (pre ++ t :: suf) = some pre.length := by
  induction pre with
  | nil => simp [firstIdx]
  | cons x xs ih =>
    have hx : ¬ x = t := by
      intro hxt
      exact h (by simp [hxt])
    have hxs : t ∉ xs := fun hm => h (List.mem_cons_of_mem _ hm)
    simp [firstIdx, hx, ih hxs]

theorem drop_append_length (x : String) (pre suf : List String) :
    (pre ++ x :: suf).drop (pre.length + 1) = suf := by
  induction pre with
  | nil => simp
  | cons a as ih => simp [ih]

/-- Claim C10: the mirror-prefix derivation is a pure function of the
migrate_to URL; it joins with slashes the path components following the
all_forked_repositories component (all components when that component is
absent), and it raises exactly when that remaining component list is
empty. -/
theorem claim10_theorem (e : ForkEntry) :
    (("all_forked_repositories" ∉ pathParts e.migrate_to ∧ pathParts e.migrate_to ≠ []) →
        e.prefixPath = Except.ok (joinParts "/" (pathParts e.migrate_to)))
    ∧ (pathParts e.migrate_to = [] →
        e.prefixPath = Except.error ("Cannot derive prefix from migrate_to=" ++ e.migrate_to))
    ∧ (∀ pre suf, pathParts e.migrate_to = pre ++ "all_forked_repositories" :: suf →
        "all_forked_repositories" ∉ pre →
        (suf = [] →
            e.prefixPath = Except.error ("Cannot derive prefix from migrate_to=" ++ e.migrate_to))
        ∧ (suf ≠ [] → e.prefixPath = Except.ok (joinParts "/" suf))) := by
  refine ⟨?_, ?_, ?_⟩
  · rintro ⟨hnm, hne⟩
    simp [ForkEntry.prefixPath, firstIdx_eq_none _ _ hnm, hne]
  · intro h0
    simp [ForkEntry.prefixPath, h0, firstIdx]
  · intro pre suf hdec hnm
    constructor
    · intro hsuf
      subst hsuf
      simp [ForkEntry.prefixPath, hdec, firstIdx_append _ _ _ hnm, drop_append_length]
    · intro hsuf
      simp [ForkEntry.prefixPath, hdec, firstIdx_append _ _ _ hnm, drop_append_length, hsuf]

/-! ### Filesystem and working-tree model

Paths are lists of components (pathlib joins and splits component-wise);
a tree is an association list from paths to file contents. -/

/-- A filesystem path, as its components. -/
abbrev FPath := List String

/-- A file tree: association list from paths to contents. -/
abbrev FS := List (FPath × String)

/-- Content of the file at `k`, none when absent. -/
def fsRead : FS → FPath → Option String
  | [], _ => none
  | f :: t, k => if f.1 = k then some f.2 else fsRead t k

/-- Remove the file at `k` (Path.unlink with missing_ok). -/
def fsErase : FS → FPath → FS
  | [], _ => []
  | f :: t, k => if f.1 = k then fsErase t k else f :: fsErase t k

/-- Write contents at `k` (Path.write_text, overwriting). -/
def fsWrite (t : FS) (k : FPath) (c : String) : FS :=
  (k, c) :: fsErase t k

/-- Whether `k` lies at or under the directory `pc`. -/
def isUnder (pc : FPath) (k : FPath) : Bool := pc.isPrefixOf k

/-- Whether the directory `pc` exists, i.e. some file lies at or under it
(models Path.exists for the mirror prefix). -/
def pathExists (t : FS) (pc : FPath) : Bool := t.any (fun f => isUnder pc f.1)

/-- Drop every file at or under `pc`. -/
def removeUnder (pc : FPath) : FS → FS
  | [] => []
  | f :: t => if isUnder pc f.1 then removeUnder pc t else f :: removeUnder pc t

/-- Files of a prefix-relative tree placed under `pc`. -/
def placeUnder (pc : FPath) (files : FS) : FS :=
  files.map (fun f => (pc ++ f.1, f.2))

theorem fsRead_fsWrite_self (t : FS) (k : FPath) (c : String) :
    fsRead (fsWrite t k c) k = some c := by
  simp [fsWrite, fsRead]

theorem fsRead_fsErase_self (t : FS) (k : FPath) :
    fsRead (fsErase t k) k = none := by
  induction t with
  | nil => rfl
  | cons f t ih =>
    by_cases h : f.1 = k <;> simp [fsErase, fsRead, h, ih]

theorem isPrefixOf_append_self (l t : List String) :
    l.isPrefixOf (l ++ t) = true := by
  induction l with
  | nil => simp [List.isPrefixOf]
  | cons a as ih => simp [List.isPrefixOf, ih]

theorem fsRead_append_of_left_none (a b : FS) (k : FPath)
    (ha : fsRead a k = none) : fsRead (a ++ b) k = fsRead b k := by
  induction a with
  | nil => rfl
  | cons f t ih =>
    by_cases h : f.1 = k
    · simp [fsRead, h] at ha
    · simp only [fsRead, h, if_false, List.cons_append] at *
      simp [fsRead, h, ih ha]

theorem fsRead_removeUnder_none (pc : FPath) (t : FS) (k : FPath)
    (hk : isUnder pc k = true) : fsRead (removeUnder pc t) k = none := by
  induction t with
  | nil => rfl
  | cons f t ih =>
    by_cases h : isUnder pc f.1
    · simp [removeUnder, h, ih]
    · have hne : ¬ f.1 = k := by
        intro he
        rw [he] at h
        exact h hk
      simp [removeUnder, h, fsRead, hne, ih]

theorem fsRead_placeUnder_none (pc : FPath) (files : FS) (name : String)
    (h : files.all (fun f => !(f.1 == [name])) = true) :
    fsRead (placeUnder pc files) (pc ++ [name]) = none := by
  induction files with
  | nil => rfl
  | cons g t ih =>
    simp only [List.all_cons, Bool.and_eq_true, Bool.not_eq_true', beq_eq_false_iff_ne,
      ne_eq] at h
    have hne : ¬ pc ++ g.1 = pc ++ [name] := by
      intro he
      exact h.1 (List.append_cancel_left he)
    simp only [placeUnder, List.map_cons, fsRead, hne, if_false]
    exact ih (by simpa [List.all_eq_true] using h.2)

/-! ### Git world and command trace -/

/-- One git invocation issued by the scripts.  Read-only queries
(remoteGetUrl, revParse, gitStatus, statusQuery) are included so that the
trace mirrors the sequence of subprocess calls. -/
inductive Cmd
  | checkoutB (branch base : String)
  | remoteGetUrl (remote : String)
  | remoteSetUrl (remote url : String)
  | remoteAdd (remote url : String)
  | fetch (remote branch : String)
  | revParse (remote branch : String)
  | subtreeAdd (prefixArg remote branch : String)
  | subtreePull (prefixArg remote branch : String)
  | statusQuery (pc : FPath)
  | gitStatus
  | gitAddAll
  | gitCommit (msg : String)
  | gitPush (branch : String)
deriving DecidableEq

/-- Commands that mutate repository state (as opposed to read-only
queries). -/
def Cmd.isMutating : Cmd → Bool
  | Cmd.remoteGetUrl _ => false
  | Cmd.revParse _ _ => false
  | Cmd.statusQuery _ => false
  | Cmd.gitStatus => false
  | _ => true

/-- The publishing commands of the final block of main (stage, commit,
push). -/
def isPublishCmd : Cmd → Bool
  | Cmd.gitAddAll => true
  | Cmd.gitCommit _ => true
  | Cmd.gitPush _ => true
  | _ => false

/-- State of the one shared checkout: configured remotes, working tree,
committed snapshot (HEAD), local branches, the checked-out branch, and
whether a merge is in progress (conflict markers / MERGE_HEAD present). -/
structure World where
  remotes : List (String × String)
  tree : FS
  head : FS
  branches : List String
  currentBranch : String
  mergeInProgress : Bool
deriving DecidableEq

/-- Outcome of `git subtree pull --squash` as decided by the external git
collaborator: a clean squashed merge commits the merged prefix tree, while
a conflict stops mid-merge, leaving the partially merged files in the
working tree with the merge still in progress. -/
inductive PullOutcome
  | clean (files : FS)
  | conflict (conflictFiles : FS)
deriving DecidableEq

/-- Behaviour of the external collaborators during one run: the tip commit
a fetch reaches (none models a fetch failure), the upstream tree imported
by `git subtree add`, the outcome of `git subtree pull`, the wall-clock
timestamp and date, the default branch, and the snapshot of origin's
default branch that `git checkout -B` starts the run from. -/
structure GitOracle where
  fetchTip : String → String → Option String
  addFiles : String → String → FS
  pullOutcome : String → String → String → PullOutcome
  now : String
  today : String
  branchBase : String
  originSnapshot : FS

/-! ### Remote binding (update_subtrees.py lines 85-98, sync_forks.py 45-51) -/

/-- Lookup in an association list with string keys (the configured
remotes). -/
def lookupStr : List (String × String) → String → Option String
  | [], _ => none
  | r :: m, k => if r.1 = k then some r.2 else lookupStr m k

/-- Effect of `git remote set-url name url` on the remote table. -/
def setRemoteUrl : List (String × String) → String → String → List (String × String)
  | [], _, _ => []
  | r :: m, k, u => if r.1 = k then (k, u) :: setRemoteUrl m k u else r :: setRemoteUrl m k u

/-- ASCII lowering of one character (str.lower on the characters the
registry uses). -/
def lowerChar (c : Char) : Char :=
  if 65 ≤ c.toNat ∧ c.toNat ≤ 90 then Char.ofNat (c.toNat + 32) else c

/-- ASCII lowering of a string. -/
def lowerStr (s : String) : String := String.mk (s.data.map lowerChar)

/-- One character of sanitize_remote_name: alphanumerics, dash and
underscore survive, everything else becomes a dash. -/
def sanitizeChar (c : Char) : Char :=
  if c.isAlphanum ∨ c = '-' ∨ c = '_' then c else '-'

/-- sanitize_remote_name (update_subtrees.py lines 85-89). -/
def sanitize_remote_name (name : String) : String :=
  "upstream-" ++ String.mk ((name.data.map lowerChar).map sanitizeChar)

/-- ensure_remote (update_subtrees.py lines 92-98) acting on the remote
table, returning the new table and the git commands issued: get-url, then
set-url when the recorded URL differs, or add when get-url failed because
the remote does not exist. -/
def ensure_remote (m : List (String × String)) (remote url : String) :
    List (String × String) × List Cmd :=
  match lookupStr m remote with
  | some current =>
    if current = url then (m, [Cmd.remoteGetUrl remote])
    else (setRemoteUrl m remote url, [Cmd.remoteGetUrl remote, Cmd.remoteSetUrl remote url])
  | none => (m ++ [(remote, url)], [Cmd.remoteGetUrl remote, Cmd.remoteAdd remote url])

/-- add_upstream (sync_forks.py lines 45-51): adds the fixed remote named
upstream when absent and otherwise reissues set-url, unconditionally. -/
def add_upstream (m : List (String × String)) (upstream_full : String) :
    List (String × String) × List Cmd :=
  let url := "https://github.com/" ++ upstream_full ++ ".git"
  if m.any (fun r => r.1 == "upstream") then
    (setRemoteUrl m "upstream" url, [Cmd.remoteSetUrl "upstream" url])
  else (m ++ [("upstream", url)], [Cmd.remoteAdd "upstream" url])

/-! ### License discovery and provenance metadata
(update_subtrees.py lines 132-165) -/

/-- The conventional license file names (find_license's candidates set). -/
def licenseCandidates : List String :=
  ["license", "license.txt", "license.md", "copying", "copyright"]

/-- When `k` is a direct child of the directory `pc`, its file name. -/
def directChild? (pc : FPath) (k : FPath) : Option String :=
  if decide (k.length = pc.length + 1) && pc.isPrefixOf k then k.getLast? else none

/-- Whether the path `k` is a direct child of `pc` whose lowered name is a
conventional license name (the per-child test of find_license). -/
def isLicenseChildKey (pc : FPath) (k : FPath) : Bool :=
  match directChild? pc k with
  | some n => licenseCandidates.contains (lowerStr n)
  | none => false

/-- First tree entry that is a conventional license file directly inside
`pc` (the iterdir scan of find_license, in tree order). -/
def findLicenseIn : FS → FPath → Option FPath
  | [], _ => none
  | f :: t, pc => if isLicenseChildKey pc f.1 then some f.1 else findLicenseIn t pc

/-- find_license (update_subtrees.py lines 132-139): none when the mirror
directory does not exist, otherwise the first conventional license file
among its direct children. -/
def find_license (t : FS) (pc : FPath) : Option FPath :=
  if pathExists t pc then findLicenseIn t pc else none

/-- Final component of a path (Path.name). -/
def lastName (p : FPath) : String := (p.getLast?).getD ""

/-- copy_license (update_subtrees.py lines 142-149): copy the found
license to UPSTREAM_LICENSE inside the mirror and report it, or remove a
stale UPSTREAM_LICENSE and report that none was found.  Returns the new
tree and the license note. -/
def copy_license (t : FS) (pc : FPath) (lic : Option FPath) : FS × String :=
  let target := pc ++ ["UPSTREAM_LICENSE"]
  match lic with
  | some lp =>
    match fsRead t lp with
    | some content =>
      (fsWrite t target content,
        "License synced from " ++ lastName lp ++ " to UPSTREAM_LICENSE")
    | none =>
      (fsErase t target,
        "No license file found in upstream; UPSTREAM_LICENSE not created")
  | none =>
    (fsErase t target,
      "No license file found in upstream; UPSTREAM_LICENSE not created")

/-- The license-handling step of process_entry (lines 226-227): find the
license, then copy or remove. -/
def licenseStep (t : FS) (pc : FPath) : FS × String :=
  copy_license t pc (find_license t pc)

/-- The lines of UPSTREAM.md written by write_metadata
(update_subtrees.py lines 156-164). -/
def metadataLines (e : ForkEntry) (upstream_commit license_note now : String) :
    List String :=
  ["# Upstream metadata",
   "",
   "- Upstream repository: https://github.com/" ++ e.upstream,
   "- Upstream branch: " ++ e.default_branch,
   "- Latest upstream commit: " ++ upstream_commit,
   "- Imported at: " ++ now,
   "- License: " ++ license_note]

/-- The full text of UPSTREAM.md. -/
def metadataText (e : ForkEntry) (upstream_commit license_note now : String) : String :=
  joinParts "\n" (metadataLines e upstream_commit license_note now) ++ "\n"

/-- write_metadata (update_subtrees.py lines 152-165): write UPSTREAM.md
into the mirror directory. -/
def write_metadata (t : FS) (pc : FPath) (e : ForkEntry)
    (upstream_commit license_note now : String) : FS :=
  fsWrite t (pc ++ ["UPSTREAM.md"]) (metadataText e upstream_commit license_note now)

/-- status_for_prefix (update_subtrees.py lines 124-129): whether
`git status --porcelain` restricted to the mirror prefix reports anything,
i.e. some file under the prefix differs between the working tree and the
committed snapshot (changed, new, or deleted). -/
def status_for_prefix_path (tree head : FS) (pc : FPath) : Bool :=
  tree.any (fun f => isUnder pc f.1 && decide (fsRead head f.1 ≠ some f.2))
  || head.any (fun f => isUnder pc f.1 && decide (fsRead tree f.1 = none))

/-! ### Per-entry reconciliation (process_entry, lines 215-231) -/

/-- The result record built for one fork (class UpdateResult). -/
structure UpdateResult where
  fork : ForkEntry
  upstream_commit : String
  license_note : String
  changed : Bool
deriving DecidableEq

/-- How one entry's processing ended: finalized with its changed flag,
aborted by a fetch failure, or aborted by a conflicted subtree pull. -/
inductive StepTag
  | okTag (changed : Bool)
  | fetchFailed
  | conflicted
deriving DecidableEq

/-- Outcome of process_entry for one entry: the world afterwards, the git
commands issued, the UpdateResult when it completed (none when the entry
raised), and the tag. -/
structure StepOut where
  world : World
  trace : List Cmd
  result : Option UpdateResult
  tag : StepTag
deriving DecidableEq

/-- subtree_action (update_subtrees.py lines 119-121): `git subtree pull`
when the mirror already exists, `git subtree add` otherwise, both with
--squash. -/
def subtree_action_cmd (prefixArg remote branch : String) (subtreeExists : Bool) : Cmd :=
  if subtreeExists then Cmd.subtreePull prefixArg remote branch
  else Cmd.subtreeAdd prefixArg remote branch

/-- The tail of process_entry after a successful subtree add/pull:
license discovery and copy, metadata write, and the porcelain status check
that decides the changed flag. -/
def finalizeEntry (o : GitOracle) (w2 : World) (e : ForkEntry) (pc : FPath)
    (tip : String) (tr : List Cmd) : StepOut :=
  let lic := find_license w2.tree pc
  let licRes := copy_license w2.tree pc lic
  let tree4 := write_metadata licRes.1 pc e tip licRes.2 o.now
  let changed := status_for_prefix_path tree4 w2.head pc
  { world := { w2 with tree := tree4 },
    trace := tr ++ [Cmd.statusQuery pc],
    result := some { fork := e, upstream_commit := tip, license_note := licRes.2,
                     changed := changed },
    tag := StepTag.okTag changed }

/-- process_entry (update_subtrees.py lines 215-231) for one entry whose
prefix string is `p`: bind the upstream remote, fetch its tracking branch
(a failure aborts the entry), then subtree add when the mirror directory
is absent or subtree pull when present.  A clean add or pull commits the
imported prefix tree into both the working tree and HEAD; a conflicted
pull leaves the partially merged files in the working tree with the merge
in progress and raises, which aborts the entry — no rollback command is
issued anywhere.  A completed entry then runs the license step, writes
UPSTREAM.md and computes the changed flag. -/
def processEntry (o : GitOracle) (w : World) (e : ForkEntry) (p : String) : StepOut :=
  let remote := sanitize_remote_name e.name
  let er := ensure_remote w.remotes remote (upstreamUrl e)
  let w1 : World := { w with remotes := er.1 }
  match o.fetchTip remote e.default_branch with
  | none =>
    { world := w1, trace := er.2 ++ [Cmd.fetch remote e.default_branch],
      result := none, tag := StepTag.fetchFailed }
  | some tip =>
    let tr2 := er.2 ++ [Cmd.fetch remote e.default_branch, Cmd.revParse remote e.default_branch]
    let pc := slashParts p
    let subtreeExists := pathExists w1.tree pc
    let actCmd := subtree_action_cmd p remote e.default_branch subtreeExists
    if subtreeExists then
      match o.pullOutcome p remote e.default_branch with
      | PullOutcome.conflict conflictFiles =>
        { world := { w1 with tree := placeUnder pc conflictFiles ++ removeUnder pc w1.tree,
                             mergeInProgress := true },
          trace := tr2 ++ [actCmd], result := none, tag := StepTag.conflicted }
      | PullOutcome.clean files =>
        let w2 : World := { w1 with tree := placeUnder pc files ++ removeUnder pc w1.tree,
                                    head := placeUnder pc files ++ removeUnder pc w1.head }
        finalizeEntry o w2 e pc tip (tr2 ++ [actCmd])
    else
      let files := o.addFiles remote e.default_branch
      let w2 : World := { w1 with tree := placeUnder pc files ++ removeUnder pc w1.tree,
                                  head := placeUnder pc files ++ removeUnder pc w1.head }
      finalizeEntry o w2 e pc tip (tr2 ++ [actCmd])

/-! ### The batch loop and publisher (main, lines 234-276) -/

/-- What the loop recorded about one entry: the entry, how it ended, and
the worlds just before and just after its processing. -/
structure EntryLog where
  entry : ForkEntry
  tag : StepTag
  before : World
  after : World
deriving DecidableEq

/-- Aggregated outcome of the entry loop. -/
structure LoopOut where
  world : World
  trace : List Cmd
  updates : List UpdateResult
  log : List EntryLog
  aborted : Bool
deriving DecidableEq

/-- The entry loop of main (lines 243-258).  The prefix is evaluated for
the progress line printed before the try block, so an underivable prefix
raises out of main and aborts the whole batch; every exception raised
inside process_entry is caught and the loop continues with the next
entry, the except branch issuing no git command at all. -/
def runEntries (o : GitOracle) : World → List ForkEntry → LoopOut
  | w, [] => { world := w, trace := [], updates := [], log := [], aborted := false }
  | w, e :: rest =>
    match ForkEntry.prefixPath e with
    | Except.error _ =>
      { world := w, trace := [], updates := [], log := [], aborted := true }
    | Except.ok p =>
      let s := processEntry o w e p
      let r := runEntries o s.world rest
      { world := r.world,
        trace := s.trace ++ r.trace,
        updates := (match s.result with
                    | some res => if res.changed then [res] else []
                    | none => []) ++ r.updates,
        log := { entry := e, tag := s.tag, before := w, after := s.world } :: r.log,
        aborted := r.aborted }

/-- The date-stamped update branch name of main (line 240). -/
def updateBranchName (o : GitOracle) : String :=
  "auto/subtree-sync-" ++ o.today

/-- Everything main records about a run. -/
structure RunOutcome where
  world : World
  trace : List Cmd
  updates : List UpdateResult
  log : List EntryLog
  aborted : Bool
deriving DecidableEq

/-- Effect of the initial `git checkout -B update_branch origin/base`
(main, line 241): the update branch is created when absent, checked out,
and tree and HEAD are reset to origin's snapshot of the default branch. -/
def checkoutWorld (o : GitOracle) (w0 : World) : World :=
  { w0 with
    tree := o.originSnapshot, head := o.originSnapshot, mergeInProgress := false,
    branches := if updateBranchName o ∈ w0.branches then w0.branches
      else w0.branches ++ [updateBranchName o],
    currentBranch := updateBranchName o }

/-- main (update_subtrees.py lines 234-276): `git checkout -B` creates or
resets the update branch from origin's default branch before anything
else, the loop processes every entry, and only when some entry ended with
changed true does the final block stage, commit and push.  The PR and
issue calls go to the GitHub API, not to the versioned tree, and are not
part of the git trace. -/
def mainRun (o : GitOracle) (w0 : World) (entries : List ForkEntry) : RunOutcome :=
  let ub := updateBranchName o
  let r := runEntries o (checkoutWorld o w0) entries
  if r.aborted then
    { world := r.world, trace := Cmd.checkoutB ub o.branchBase :: r.trace,
      updates := r.updates, log := r.log, aborted := true }
  else if r.updates = [] then
    { world := r.world, trace := Cmd.checkoutB ub o.branchBase :: r.trace,
      updates := r.updates, log := r.log, aborted := false }
  else
    { world := { r.world with head := r.world.tree },
      trace := Cmd.checkoutB ub o.branchBase :: r.trace
        ++ [Cmd.gitStatus, Cmd.gitAddAll,
            Cmd.gitCommit "chore: sync upstream subtrees", Cmd.gitPush ub],
      updates := r.updates, log := r.log, aborted := false }

/-! ### Registry records (readme_forks.json / forks.json / forks.yaml)

Registry records are loosely typed JSON objects; a record is an
association list from field names to JSON values.  The registries of this
repository store only strings, booleans, numbers and nulls in their
fields. -/

/-- A JSON field value as stored by the registries. -/
inductive JValue
  | str (s : String)
  | num (n : Int)
  | bool (b : Bool)
  | null
deriving DecidableEq

/-- A registry record: field names with their values, in file order. -/
abbrev Record := List (String × JValue)

/-- Value of a field (dict.get, none when the field is absent). -/
def recordGet? : Record → String → Option JValue
  | [], _ => none
  | f :: r, k => if f.1 = k then some f.2 else recordGet? r k

/-- dict.get with a default (the default applies only when the field is
absent, exactly as in Python). -/
def recordGetD (r : Record) (k : String) (d : JValue) : JValue :=
  (recordGet? r k).getD d

/-- load_readme_forks (manage_forks.py lines 50-54): a missing store file
loads as the empty list, an existing store parses to its records. -/
def load_readme_forks (store : Option (List Record)) : List Record :=
  match store with
  | none => []
  | some data => data

/-- save_readme_forks (manage_forks.py lines 57-59): the records are
serialized back verbatim. -/
def save_readme_forks (data : List Record) : Option (List Record) :=
  some data

/-- A required string field of a forks.json record (`raw[key]` — a
missing key raises KeyError). -/
def reqStr (raw : Record) (k : String) : Except String String :=
  match recordGet? raw k with
  | some (JValue.str s) => Except.ok s
  | some _ => Except.error ("TypeError: " ++ k)
  | none => Except.error ("KeyError: " ++ k)

/-- The default_branch field with its default
(`raw.get("default_branch", "master")`). -/
def defaultBranchField (raw : Record) : String :=
  match recordGet? raw "default_branch" with
  | some (JValue.str s) => s
  | _ => "master"

/-- One raw forks.json record turned into a ForkEntry
(update_subtrees.py lines 73-81). -/
def loadEntry (raw : Record) : Except String ForkEntry := do
  let n ← reqStr raw "name"
  let u ← reqStr raw "upstream"
  let mt ← reqStr raw "migrate_to"
  Except.ok { name := n, upstream := u, default_branch := defaultBranchField raw,
              migrate_to := mt }

/-- load_entries (update_subtrees.py lines 70-82): FORKS_FILE.read_text
raises FileNotFoundError when forks.json is absent — the absent store is
an error, not an empty sequence. -/
def load_entries (store : Option (List Record)) : Except String (List ForkEntry) :=
  match store with
  | none => Except.error "FileNotFoundError: forks.json"
  | some data => data.mapM loadEntry

/-- The body of generate_forks_json.py (lines 14-25): each fork record of
forks.yaml is projected onto a fixed set of seven fields, with defaults
for the last three. -/
def generate_forks_json (forks : List Record) : List Record :=
  forks.map (fun f =>
    [("source", recordGetD f "source" JValue.null),
     ("owner", recordGetD f "owner" JValue.null),
     ("name", recordGetD f "name" JValue.null),
     ("default_branch", recordGetD f "default_branch" (JValue.str "master")),
     ("upstream", recordGetD f "upstream" (JValue.str "")),
     ("migrate_to", recordGetD f "migrate_to" (JValue.str "")),
     ("url", recordGetD f "url" (JValue.str ""))])

/-! ### Overlap cleanup (manage_forks.py lines 266-284) -/

/-- Whether the string starts with the given other string
(str.startswith). -/
def strStartsWith (s pre : String) : Bool := pre.data.isPrefixOf s.data

/-- The subtree_path of a record when it is a truthy string; the
registry's constructors store subtree_path as a string or null, so Python
truthiness is non-emptiness here. -/
def subtreePath? (e : Record) : Option String :=
  match recordGet? e "subtree_path" with
  | some (JValue.str s) => if s = "" then none else some s
  | _ => none

/-- The set of truthy subtree paths of the registry (the all_subtrees set
of cmd_clean_faux_positifs). -/
def allSubtrees (data : List Record) : List String :=
  data.filterMap subtreePath?

/-- is_subfolder (manage_forks.py lines 273-277): some already referenced
subtree path, different from this one, is a proper ancestor directory of
it. -/
def is_subfolder (alls : List String) (p : String) : Bool :=
  alls.any (fun ks => !(ks == "") && !(ks == p) && strStartsWith p (ks ++ "/"))

/-- cmd_clean_faux_positifs (manage_forks.py lines 266-284): keep exactly
the records whose subtree_path is not a subfolder of another referenced
subtree path. -/
def cmd_clean_faux_positifs (data : List Record) : List Record :=
  let alls := allSubtrees data
  data.filter (fun e =>
    match subtreePath? e with
    | some p => !(is_subfolder alls p)
    | none => true)

/-! ### Entry construction (manage_forks.py lines 74-136) -/

/-- The fields of fetch_repo_info's result that build_entry_from_upstream
reads (the GitHub API lookup itself is an external collaborator). -/
structure RepoInfo where
  html_url : String
  description : String
  license_name : String
  license_html : String
  default_branch : String
  owner : String
  name : String
deriving DecidableEq

/-- Split at the first occurrence of a character: some (before, after)
when the character occurs (str.split with maxsplit one). -/
def breakAtChar (c : Char) : List Char → Option (List Char × List Char)
  | [] => none
  | a :: as =>
    if a = c then some ([], as)
    else (breakAtChar c as).map (fun p => (a :: p.1, p.2))

/-- Python truthiness of an optional string argument. -/
def truthyStr : Option String → Bool
  | some s => !(s == "")
  | none => false

/-- An "or None" string field: empty strings collapse to null. -/
def strOrNull (s : String) : JValue :=
  if s = "" then JValue.null else JValue.str s

/-- build_entry_from_upstream (manage_forks.py lines 111-136): the record
appended for a newly registered fork.  The GitHub lookup result, and
datetime.utcnow, are inputs.  Note the subtree_license_verified and
verified fields: they are initialized to false here (and nowhere in the
scripts ever set to true). -/
def build_entry_from_upstream (info : RepoInfo) (upstream_fullname : String)
    (source subtree local_branch : Option String) (addedAt : String) : Record :=
  let srcSplit := source.bind (fun s => breakAtChar '/' s.data)
  let owner : String :=
    if truthyStr source ∧ srcSplit.isSome then
      String.mk (((srcSplit.getD ([], [])).1))
    else match source with
      | none => info.owner
      | some s => s
  let name : String :=
    if truthyStr source ∧ srcSplit.isSome then
      String.mk (((srcSplit.getD ([], [])).2))
    else match source with
      | none => info.name
      | some _ => info.name
  let sourceField : String :=
    match source with
    | some s => if s = "" then owner ++ "/" ++ name else s
    | none => owner ++ "/" ++ name
  let localBranch : String :=
    match local_branch with
    | some s => if s = "" then "master" else s
    | none => "master"
  let subtreeField : JValue :=
    match subtree with
    | some s => if s = "" then JValue.null else JValue.str s
    | none => JValue.null
  [("source", JValue.str sourceField),
   ("owner", JValue.str owner),
   ("name", JValue.str name),
   ("local_default_branch", JValue.str localBranch),
   ("upstream", JValue.str upstream_fullname),
   ("upstream_url", JValue.str info.html_url),
   ("upstream_default_branch", JValue.str info.default_branch),
   ("upstream_description", JValue.str info.description),
   ("upstream_license_name", strOrNull info.license_name),
   ("upstream_license_url", strOrNull info.license_html),
   ("subtree_path", subtreeField),
   ("subtree_exists", JValue.bool (truthyStr subtree)),
   ("subtree_license_file", JValue.null),
   ("subtree_license_verified", JValue.bool false),
   ("verified", JValue.bool false),
   ("notes", JValue.str ""),
   ("added_at", JValue.str addedAt)]

/-! ### Concrete fixtures used by counterexamples and witnesses -/

/-- A tracked fork whose mirror lives at tools/one. -/
def exEntry1 : ForkEntry :=
  { name := "one", upstream := "alice/one", default_branch := "main",
    migrate_to := "https://github.com/OurITRes/all_forked_repositories/tools/one" }

/-- A second tracked fork, at tools/two. -/
def exEntry2 : ForkEntry :=
  { name := "two", upstream := "bob/two", default_branch := "main",
    migrate_to := "https://github.com/OurITRes/all_forked_repositories/tools/two" }

/-- A fork whose migrate_to ends at the all_forked_repositories component,
so no prefix components remain. -/
def exEntryBad : ForkEntry :=
  { name := "bad", upstream := "carol/bad", default_branch := "main",
    migrate_to := "https://github.com/OurITRes/all_forked_repositories" }

/-- A fork whose migrate_to has an empty URL path. -/
def exEntryEmptyPath : ForkEntry :=
  { name := "emptypath", upstream := "dave/empty", default_branch := "main",
    migrate_to := "https://github.com" }

/-- A run in which entry one's squashed subtree pull conflicts and entry
two's fetch fails: origin already contains the tools/one mirror, the pull
of it conflicts, and only upstream-one is fetchable. -/
def exOracle : GitOracle :=
  { fetchTip := fun r b => if r = "upstream-one" ∧ b = "main" then some "c1sha" else none,
    addFiles := fun _ _ => [],
    pullOutcome := fun _ _ _ => PullOutcome.conflict [(["a.txt"], "conflicted content")],
    now := "2025-10-12 00:00:00 UTC",
    today := "20251012",
    branchBase := "main",
    originSnapshot := [(["tools", "one", "a.txt"], "old content")] }

/-- A run in which origin is empty and the upstream of entry one imports
cleanly as a fresh mirror containing a single source file. -/
def exOracle2 : GitOracle :=
  { fetchTip := fun r b => if r = "upstream-one" ∧ b = "main" then some "c1sha" else none,
    addFiles := fun _ _ => [(["src.txt"], "hello")],
    pullOutcome := fun _ _ _ => PullOutcome.clean [(["src.txt"], "hello")],
    now := "2025-10-12 00:00:00 UTC",
    today := "20251012",
    branchBase := "main",
    originSnapshot := [] }

/-- The checkout state before a run: no remotes, empty tree, only the
default branch. -/
def exWorld : World :=
  { remotes := [], tree := [], head := [], branches := ["main"],
    currentBranch := "main", mergeInProgress := false }

/-- A checkout in which the tools/one mirror exists and is committed, with
the upstream remote already bound. -/
def exWorldMirror : World :=
  { remotes := [("upstream-one", "https://github.com/alice/one.git")],
    tree := [(["tools", "one", "a.txt"], "old content")],
    head := [(["tools", "one", "a.txt"], "old content")],
    branches := ["main"], currentBranch := "main", mergeInProgress := false }

/-- Placeholder log entry used as the default of getD. -/
def dummyLog : EntryLog :=
  { entry := exEntry1, tag := StepTag.fetchFailed, before := exWorld, after := exWorld }

/-- Claim C1 counterexample: in this concrete batch, entry one's squashed
subtree pull conflicts and entry two is still processed, but the working
tree is not left in the state it had before entry one started — the failed
pull leaves the merge in progress and the partially merged file in the
tree, and the batch loop issues no rollback before moving on. -/
theorem claim1_counterexample :
    (mainRun exOracle exWorld [exEntry1, exEntry2]).log.map (fun l => l.entry.name)
      = ["one", "two"]
    ∧ ((mainRun exOracle exWorld [exEntry1, exEntry2]).log.getD 0 dummyLog).tag
      = StepTag.conflicted
    ∧ ¬ (((mainRun exOracle exWorld [exEntry1, exEntry2]).log.getD 0 dummyLog).after
        = ((mainRun exOracle exWorld [exEntry1, exEntry2]).log.getD 0 dummyLog).before) := by
  decide

/-- Claim C2 counterexample: a run whose aggregated changed-set is empty
still creates the update branch — `git checkout -B` runs unconditionally
before the loop, so the branch exists afterwards even though it did not
exist before and no entry changed. -/
theorem claim2_counterexample :
    (mainRun exOracle exWorld []).updates = []
    ∧ Cmd.checkoutB (updateBranchName exOracle) exOracle.branchBase
        ∈ (mainRun exOracle exWorld []).trace
    ∧ updateBranchName exOracle ∈ (mainRun exOracle exWorld []).world.branches
    ∧ updateBranchName exOracle ∉ exWorld.branches := by
  decide

/-- Claim C3 counterexample: an entry whose merge ends CONFLICTED — per
the specification a FINALIZED entry — gets no provenance record at all:
the conflicted pull raises before write_metadata, so no UPSTREAM.md is
written into the mirror and no result is recorded. -/
theorem claim3_counterexample :
    (processEntry exOracle exWorldMirror exEntry1 "tools/one").tag = StepTag.conflicted
    ∧ (processEntry exOracle exWorldMirror exEntry1 "tools/one").result = none
    ∧ fsRead (processEntry exOracle exWorldMirror exEntry1 "tools/one").world.tree
        ["tools", "one", "UPSTREAM.md"] = none := by
  decide

/-- Claim C5 counterexample: the subtree updater's registry load raises on
a missing forks.json instead of returning an empty sequence —
FORKS_FILE.read_text propagates FileNotFoundError. -/
theorem claim5_counterexample :
    load_entries none = Except.error "FileNotFoundError: forks.json" := rfl

/-- Claim C5 amended: load_readme_forks on a missing store returns the
empty sequence without failing, but load_entries — the registry load of
the batch orchestrator — fails on a missing forks.json and aborts that
run. -/
theorem claim5_amended :
    load_readme_forks none = ([] : List Record)
    ∧ load_entries none = Except.error "FileNotFoundError: forks.json" :=
  ⟨rfl, rfl⟩

/-- A registry record carrying a field beyond the core schema. -/
def extraRec : Record :=
  [("name", JValue.str "x"), ("extra_field", JValue.str "keep-me")]

/-- Claim C6 counterexample: the JSON generation step drops unknown
fields — a record carrying extra_field loses it, because the output record
is rebuilt from a fixed list of seven fields. -/
theorem claim6_counterexample :
    recordGet? extraRec "extra_field" = some (JValue.str "keep-me")
    ∧ recordGet? ((generate_forks_json [extraRec]).getD 0 []) "extra_field" = none
    ∧ (generate_forks_json [extraRec]).length = 1 := by
  decide

/-- Claim C6 amended: a load followed by a save preserves every record
verbatim, unknown fields included; the JSON generation step, however,
projects each record onto the fixed seven-field schema, so any field
outside it is dropped. -/
theorem claim6_amended :
    (∀ d : List Record, save_readme_forks (load_readme_forks (some d)) = some d)
    ∧ (∀ (d : List Record) (r : Record), r ∈ generate_forks_json d →
        r.map Prod.fst
          = ["source", "owner", "name", "default_branch", "upstream", "migrate_to", "url"]) := by
  constructor
  · intro d
    rfl
  · intro d r hr
    simp only [generate_forks_json, List.mem_map] at hr
    obtain ⟨f, _, rfl⟩ := hr
    rfl

/-- Witness for claim C6's amended theorem at a concrete registry. -/
theorem claim6_witness :
    save_readme_forks (load_readme_forks (some [extraRec])) = some [extraRec]
    ∧ ((generate_forks_json [extraRec]).getD 0 []).map Prod.fst
        = ["source", "owner", "name", "default_branch", "upstream", "migrate_to", "url"] :=
  ⟨claim6_amended.1 [extraRec],
   claim6_amended.2 [extraRec] ((generate_forks_json [extraRec]).getD 0 []) (by decide)⟩

/-! ### Remote binder lemmas and claim C8 -/

theorem lookupStr_setRemoteUrl_self (m : List (String × String)) (k u : String) :
    lookupStr (setRemoteUrl m k u) k = (lookupStr m k).map (fun _ => u) := by
  induction m with
  | nil => rfl
  | cons r t ih => by_cases h : r.1 = k <;> simp [setRemoteUrl, lookupStr, h, ih]

theorem lookupStr_append_single (m : List (String × String)) (k u : String)
    (h : lookupStr m k = none) : lookupStr (m ++ [(k, u)]) k = some u := by
  induction m with
  | nil => simp [lookupStr]
  | cons r t ih =>
    by_cases hr : r.1 = k
    · rw [lookupStr, if_pos hr] at h
      cases h
    · rw [lookupStr, if_neg hr] at h
      rw [List.cons_append, lookupStr, if_neg hr]
      exact ih h

theorem setRemoteUrl_idem (m : List (String × String)) (k u : String) :
    setRemoteUrl (setRemoteUrl m k u) k u = setRemoteUrl m k u := by
  induction m with
  | nil => rfl
  | cons r t ih => by_cases h : r.1 = k <;> simp [setRemoteUrl, h, ih]

theorem any_key_setRemoteUrl (m : List (String × String)) (k u : String) :
    (setRemoteUrl m k u).any (fun r => r.1 == k) = m.any (fun r => r.1 == k) := by
  induction m with
  | nil => rfl
  | cons r t ih => by_cases h : r.1 = k <;> simp [setRemoteUrl, h, ih]

theorem setRemoteUrl_of_any_false (m : List (String × String)) (k u : String)
    (h : m.any (fun r => r.1 == k) = false) : setRemoteUrl m k u = m := by
  induction m with
  | nil => rfl
  | cons r t ih =>
    simp only [List.any_cons, Bool.or_eq_false_iff, beq_eq_false_iff_ne, ne_eq] at h
    simp [setRemoteUrl, h.1, ih (by simp [List.any_eq_true]; simpa [List.any_eq_true] using h.2)]

theorem setRemoteUrl_append (a b : List (String × String)) (k u : String) :
    setRemoteUrl (a ++ b) k u = setRemoteUrl a k u ++ setRemoteUrl b k u := by
  induction a with
  | nil => rfl
  | cons r t ih => by_cases h : r.1 = k <;> simp [setRemoteUrl, h, ih]

theorem lookupStr_isSome_iff_any (m : List (String × String)) (k : String) :
    (lookupStr m k).isSome = m.any (fun r => r.1 == k) := by
  induction m with
  | nil => rfl
  | cons r t ih => by_cases h : r.1 = k <;> simp [lookupStr, h, ih]

theorem ensure_remote_correct (m : List (String × String)) (remote url : String)
    (h : lookupStr m remote = some url) :
    ensure_remote m remote url = (m, [Cmd.remoteGetUrl remote]) := by
  simp [ensure_remote, h]

theorem add_upstream_of_any_true (m : List (String × String)) (full : String)
    (h : m.any (fun r => r.1 == "upstream") = true) :
    add_upstream m full
      = (setRemoteUrl m "upstream" ("https://github.com/" ++ full ++ ".git"),
         [Cmd.remoteSetUrl "upstream" ("https://github.com/" ++ full ++ ".git")]) := by
  unfold add_upstream
  rw [h]
  simp

theorem add_upstream_of_any_false (m : List (String × String)) (full : String)
    (h : m.any (fun r => r.1 == "upstream") = false) :
    add_upstream m full
      = (m ++ [("upstream", "https://github.com/" ++ full ++ ".git")],
         [Cmd.remoteAdd "upstream" ("https://github.com/" ++ full ++ ".git")]) := by
  unfold add_upstream
  rw [h]
  simp

/-- Claim C8: ensure_remote establishes that the named remote points at
the given URL — creating it when absent and repointing it when its
recorded URL differs — issues no state-mutating command when the remote is
already correct, and a second successive call is a no-op; sync_forks'
add_upstream likewise establishes the upstream remote's URL and is
idempotent on the remote table. -/
theorem claim8_theorem (m : List (String × String)) (remote url full : String) :
    lookupStr (ensure_remote m remote url).1 remote = some url
    ∧ (lookupStr m remote = none →
        (ensure_remote m remote url).1 = m ++ [(remote, url)])
    ∧ (lookupStr m remote = some url →
        ensure_remote m remote url = (m, [Cmd.remoteGetUrl remote]))
    ∧ (lookupStr m remote = some url →
        (ensure_remote m remote url).2.all (fun c => !(Cmd.isMutating c)) = true)
    ∧ ensure_remote (ensure_remote m remote url).1 remote url
        = ((ensure_remote m remote url).1, [Cmd.remoteGetUrl remote])
    ∧ lookupStr (add_upstream m full).1 "upstream"
        = some ("https://github.com/" ++ full ++ ".git")
    ∧ (add_upstream (add_upstream m full).1 full).1 = (add_upstream m full).1 := by
  have h1 : lookupStr (ensure_remote m remote url).1 remote = some url := by
    cases h : lookupStr m remote with
    | none =>
      simp only [ensure_remote, h]
      exact lookupStr_append_single m remote url h
    | some c =>
      by_cases hc : c = url
      · simp [ensure_remote, h, hc]
      · simp only [ensure_remote, h, hc, if_false]
        rw [lookupStr_setRemoteUrl_self, h]
        rfl
  refine ⟨h1, ?_, ?_, ?_, ?_, ?_, ?_⟩
  · intro h
    simp [ensure_remote, h]
  · intro h
    exact ensure_remote_correct m remote url h
  · intro h
    rw [ensure_remote_correct m remote url h]
    rfl
  · exact ensure_remote_correct _ remote url h1
  · cases hAny : m.any (fun r => r.1 == "upstream") with
    | true =>
      rw [add_upstream_of_any_true m full hAny]
      rw [lookupStr_setRemoteUrl_self]
      have hs : (lookupStr m "upstream").isSome = true := by
        rw [lookupStr_isSome_iff_any, hAny]
      obtain ⟨c, hc⟩ := Option.isSome_iff_exists.mp hs
      rw [hc]
      rfl
    | false =>
      rw [add_upstream_of_any_false m full hAny]
      have hn : lookupStr m "upstream" = none := by
        have := lookupStr_isSome_iff_any m "upstream"
        rw [hAny] at this
        exact Option.not_isSome_iff_eq_none.mp (by simp [this])
      exact lookupStr_append_single m "upstream" _ hn
  · cases hAny : m.any (fun r => r.1 == "upstream") with
    | true =>
      rw [add_upstream_of_any_true m full hAny]
      have hAny2 :
          (setRemoteUrl m "upstream" ("https://github.com/" ++ full ++ ".git")).any
            (fun r => r.1 == "upstream") = true := by
        rw [any_key_setRemoteUrl, hAny]
      rw [add_upstream_of_any_true _ full hAny2]
      exact setRemoteUrl_idem m "upstream" _
    | false =>
      rw [add_upstream_of_any_false m full hAny]
      have hAny2 :
          (m ++ [("upstream", "https://github.com/" ++ full ++ ".git")]).any
            (fun r => r.1 == "upstream") = true := by
        simp
      rw [add_upstream_of_any_true _ full hAny2]
      rw [setRemoteUrl_append, setRemoteUrl_of_any_false m _ _ hAny]
      rfl

/-- Witness for claim C8 at a concrete remote table that is already
correct: the call issues only the read-only get-url query. -/
theorem claim8_witness :
    lookupStr [("upstream-one", "https://github.com/alice/one.git")] "upstream-one"
      = some "https://github.com/alice/one.git"
    ∧ ensure_remote [("upstream-one", "https://github.com/alice/one.git")]
        "upstream-one" "https://github.com/alice/one.git"
      = ([("upstream-one", "https://github.com/alice/one.git")],
         [Cmd.remoteGetUrl "upstream-one"]) :=
  ⟨by decide,
   (claim8_theorem [("upstream-one", "https://github.com/alice/one.git")]
      "upstream-one" "https://github.com/alice/one.git" "alice/one").2.2.1 (by decide)⟩

/-! ### Overlap cleanup: claim C7 -/

theorem subtreePath?_ne_empty {e : Record} {p : String}
    (h : subtreePath? e = some p) : p ≠ "" := by
  rcases hg : recordGet? e "subtree_path" with _ | v
  · simp [subtreePath?, hg] at h
  · cases v with
    | str s =>
      by_cases hs : s = ""
      · simp [subtreePath?, hg, hs] at h
      · have hsp : s = p := by simpa [subtreePath?, hg, hs] using h
        exact hsp ▸ hs
    | num n => simp [subtreePath?, hg] at h
    | bool b => simp [subtreePath?, hg] at h
    | null => simp [subtreePath?, hg] at h

theorem is_subfolder_iff (data : List Record) (p : String) :
    is_subfolder (allSubtrees data) p = true ↔
      ∃ e2 ∈ data, ∃ p2, subtreePath? e2 = some p2 ∧ p2 ≠ p
        ∧ strStartsWith p (p2 ++ "/") = true := by
  unfold is_subfolder allSubtrees
  rw [List.any_eq_true]
  constructor
  · rintro ⟨ks, hks, hb⟩
    rw [List.mem_filterMap] at hks
    obtain ⟨e2, he2, hpe⟩ := hks
    simp only [Bool.and_eq_true, Bool.not_eq_true', beq_eq_false_iff_ne, ne_eq] at hb
    exact ⟨e2, he2, ks, hpe, hb.1.2, hb.2⟩
  · rintro ⟨e2, he2, p2, hpe, hne, hsw⟩
    refine ⟨p2, ?_, ?_⟩
    · rw [List.mem_filterMap]
      exact ⟨e2, he2, hpe⟩
    · simp only [Bool.and_eq_true, Bool.not_eq_true', beq_eq_false_iff_ne, ne_eq]
      exact ⟨⟨subtreePath?_ne_empty hpe, hne⟩, hsw⟩

/-- Claim C7: the overlap cleanup removes exactly the entries whose
mirror path extends another entry's mirror path past a slash separator,
and keeps every other entry unchanged, in the original order. -/
theorem claim7_theorem (data : List Record) :
    (cmd_clean_faux_positifs data).Sublist data
    ∧ ∀ e : Record, e ∈ cmd_clean_faux_positifs data ↔
        (e ∈ data ∧ ¬ ∃ p, subtreePath? e = some p ∧
          ∃ e2 ∈ data, ∃ p2, subtreePath? e2 = some p2 ∧ p2 ≠ p
            ∧ strStartsWith p (p2 ++ "/") = true) := by
  constructor
  · exact List.filter_sublist _
  · intro e
    show e ∈ data.filter _ ↔ _
    rw [List.mem_filter]
    constructor
    · rintro ⟨hmem, hpred⟩
      refine ⟨hmem, ?_⟩
      rintro ⟨p, hp, hrest⟩
      rw [hp] at hpred
      simp only [Bool.not_eq_true'] at hpred
      rw [← Bool.not_eq_true, is_subfolder_iff data p] at hpred
      · exact hpred hrest
    · rintro ⟨hmem, hno⟩
      refine ⟨hmem, ?_⟩
      cases hp : subtreePath? e with
      | none => simp
      | some p =>
        simp only [Bool.not_eq_true']
        rw [← Bool.not_eq_true, is_subfolder_iff data p]
        intro hsub
        exact hno ⟨p, hp, hsub⟩

/-- Registry with a nested mirror path used by claim C7's witness. -/
def exCleanData : List Record :=
  [[("subtree_path", JValue.str "tools")],
   [("subtree_path", JValue.str "tools/x")],
   [("name", JValue.str "c")]]

/-- Witness for claim C7 at a concrete registry: the nested entry is
removed, the outer one and the pathless one survive in order. -/
theorem claim7_witness :
    cmd_clean_faux_positifs exCleanData
      = [[("subtree_path", JValue.str "tools")], [("name", JValue.str "c")]]
    ∧ ((cmd_clean_faux_positifs exCleanData).Sublist exCleanData
    ∧ ∀ e : Record, e ∈ cmd_clean_faux_positifs exCleanData ↔
        (e ∈ exCleanData ∧ ¬ ∃ p, subtreePath? e = some p ∧
          ∃ e2 ∈ exCleanData, ∃ p2, subtreePath? e2 = some p2 ∧ p2 ≠ p
            ∧ strStartsWith p (p2 ++ "/") = true)) :=
  ⟨by decide, claim7_theorem exCleanData⟩

/-! ### Equation lemmas for process_entry -/

theorem finalizeEntry_result_eq (o : GitOracle) (w2 : World) (e : ForkEntry)
    (pc : FPath) (tip : String) (tr : List Cmd) :
    (finalizeEntry o w2 e pc tip tr).result
      = some { fork := e, upstream_commit := tip,
               license_note := (licenseStep w2.tree pc).2,
               changed := status_for_prefix_path
                 (write_metadata (licenseStep w2.tree pc).1 pc e tip
                   (licenseStep w2.tree pc).2 o.now) w2.head pc } := rfl

theorem finalizeEntry_tree_eq (o : GitOracle) (w2 : World) (e : ForkEntry)
    (pc : FPath) (tip : String) (tr : List Cmd) :
    (finalizeEntry o w2 e pc tip tr).world.tree
      = write_metadata (licenseStep w2.tree pc).1 pc e tip
          (licenseStep w2.tree pc).2 o.now := rfl

theorem finalizeEntry_head_eq (o : GitOracle) (w2 : World) (e : ForkEntry)
    (pc : FPath) (tip : String) (tr : List Cmd) :
    (finalizeEntry o w2 e pc tip tr).world.head = w2.head := rfl

theorem finalizeEntry_trace_eq (o : GitOracle) (w2 : World) (e : ForkEntry)
    (pc : FPath) (tip : String) (tr : List Cmd) :
    (finalizeEntry o w2 e pc tip tr).trace = tr ++ [Cmd.statusQuery pc] := rfl

theorem finalizeEntry_tag_eq (o : GitOracle) (w2 : World) (e : ForkEntry)
    (pc : FPath) (tip : String) (tr : List Cmd) :
    ∃ b, (finalizeEntry o w2 e pc tip tr).tag = StepTag.okTag b := ⟨_, rfl⟩

theorem processEntry_fetchFailed_eq (o : GitOracle) (w : World) (e : ForkEntry) (p : String)
    (h : o.fetchTip (sanitize_remote_name e.name) e.default_branch = none) :
    processEntry o w e p =
      { world := { w with remotes :=
          (ensure_remote w.remotes (sanitize_remote_name e.name) (upstreamUrl e)).1 },
        trace := (ensure_remote w.remotes (sanitize_remote_name e.name) (upstreamUrl e)).2
          ++ [Cmd.fetch (sanitize_remote_name e.name) e.default_branch],
        result := none, tag := StepTag.fetchFailed } := by
  simp only [processEntry, h]

theorem processEntry_conflict_eq (o : GitOracle) (w : World) (e : ForkEntry) (p : String)
    (tip : String) (cf : FS)
    (hf : o.fetchTip (sanitize_remote_name e.name) e.default_branch = some tip)
    (hex : pathExists w.tree (slashParts p) = true)
    (hp : o.pullOutcome p (sanitize_remote_name e.name) e.default_branch
      = PullOutcome.conflict cf) :
    processEntry o w e p =
      { world := { w with
          remotes := (ensure_remote w.remotes (sanitize_remote_name e.name) (upstreamUrl e)).1,
          tree := placeUnder (slashParts p) cf ++ removeUnder (slashParts p) w.tree,
          mergeInProgress := true },
        trace := (ensure_remote w.remotes (sanitize_remote_name e.name) (upstreamUrl e)).2
          ++ [Cmd.fetch (sanitize_remote_name e.name) e.default_branch,
              Cmd.revParse (sanitize_remote_name e.name) e.default_branch]
          ++ [Cmd.subtreePull p (sanitize_remote_name e.name) e.default_branch],
        result := none, tag := StepTag.conflicted } := by
  simp only [processEntry, hf, hex, hp, subtree_action_cmd, if_true]

theorem processEntry_add_eq (o : GitOracle) (w : World) (e : ForkEntry) (p : String)
    (tip : String)
    (hf : o.fetchTip (sanitize_remote_name e.name) e.default_branch = some tip)
    (hex : pathExists w.tree (slashParts p) = false) :
    processEntry o w e p =
      finalizeEntry o
        { w with
          remotes := (ensure_remote w.remotes (sanitize_remote_name e.name) (upstreamUrl e)).1,
          tree := placeUnder (slashParts p)
              (o.addFiles (sanitize_remote_name e.name) e.default_branch)
            ++ removeUnder (slashParts p) w.tree,
          head := placeUnder (slashParts p)
              (o.addFiles (sanitize_remote_name e.name) e.default_branch)
            ++ removeUnder (slashParts p) w.head }
        e (slashParts p) tip
        ((ensure_remote w.remotes (sanitize_remote_name e.name) (upstreamUrl e)).2
          ++ [Cmd.fetch (sanitize_remote_name e.name) e.default_branch,
              Cmd.revParse (sanitize_remote_name e.name) e.default_branch]
          ++ [Cmd.subtreeAdd p (sanitize_remote_name e.name) e.default_branch]) := by
  simp only [processEntry, hf, hex, subtree_action_cmd, if_false, Bool.false_eq_true]

theorem processEntry_clean_eq (o : GitOracle) (w : World) (e : ForkEntry) (p : String)
    (tip : String) (files : FS)
    (hf : o.fetchTip (sanitize_remote_name e.name) e.default_branch = some tip)
    (hex : pathExists w.tree (slashParts p) = true)
    (hp : o.pullOutcome p (sanitize_remote_name e.name) e.default_branch
      = PullOutcome.clean files) :
    processEntry o w e p =
      finalizeEntry o
        { w with
          remotes := (ensure_remote w.remotes (sanitize_remote_name e.name) (upstreamUrl e)).1,
          tree := placeUnder (slashParts p) files ++ removeUnder (slashParts p) w.tree,
          head := placeUnder (slashParts p) files ++ removeUnder (slashParts p) w.head }
        e (slashParts p) tip
        ((ensure_remote w.remotes (sanitize_remote_name e.name) (upstreamUrl e)).2
          ++ [Cmd.fetch (sanitize_remote_name e.name) e.default_branch,
              Cmd.revParse (sanitize_remote_name e.name) e.default_branch]
          ++ [Cmd.subtreePull p (sanitize_remote_name e.name) e.default_branch]) := by
  simp only [processEntry, hf, hex, hp, subtree_action_cmd, if_true]

/-! ### Batch-loop lemmas and claims C1 and C2 -/

theorem mainRun_aborted_eq (o : GitOracle) (w0 : World) (entries : List ForkEntry)
    (h : (runEntries o (checkoutWorld o w0) entries).aborted = true) :
    mainRun o w0 entries =
      { world := (runEntries o (checkoutWorld o w0) entries).world,
        trace := Cmd.checkoutB (updateBranchName o) o.branchBase
          :: (runEntries o (checkoutWorld o w0) entries).trace,
        updates := (runEntries o (checkoutWorld o w0) entries).updates,
        log := (runEntries o (checkoutWorld o w0) entries).log,
        aborted := true } := by
  simp only [mainRun, h, if_true]

theorem mainRun_noop_eq (o : GitOracle) (w0 : World) (entries : List ForkEntry)
    (h : (runEntries o (checkoutWorld o w0) entries).aborted = false)
    (hu : (runEntries o (checkoutWorld o w0) entries).updates = []) :
    mainRun o w0 entries =
      { world := (runEntries o (checkoutWorld o w0) entries).world,
        trace := Cmd.checkoutB (updateBranchName o) o.branchBase
          :: (runEntries o (checkoutWorld o w0) entries).trace,
        updates := [],
        log := (runEntries o (checkoutWorld o w0) entries).log,
        aborted := false } := by
  simp only [mainRun, h, hu, if_false, if_true, Bool.false_eq_true]

theorem mainRun_publish_eq (o : GitOracle) (w0 : World) (entries : List ForkEntry)
    (h : (runEntries o (checkoutWorld o w0) entries).aborted = false)
    (hu : ¬ (runEntries o (checkoutWorld o w0) entries).updates = []) :
    mainRun o w0 entries =
      { world := { (runEntries o (checkoutWorld o w0) entries).world with
          head := (runEntries o (checkoutWorld o w0) entries).world.tree },
        trace := Cmd.checkoutB (updateBranchName o) o.branchBase
          :: (runEntries o (checkoutWorld o w0) entries).trace
          ++ [Cmd.gitStatus, Cmd.gitAddAll,
              Cmd.gitCommit "chore: sync upstream subtrees",
              Cmd.gitPush (updateBranchName o)],
        updates := (runEntries o (checkoutWorld o w0) entries).updates,
        log := (runEntries o (checkoutWorld o w0) entries).log,
        aborted := false } := by
  simp only [mainRun, h, hu, if_false, Bool.false_eq_true]

theorem mainRun_log_eq (o : GitOracle) (w0 : World) (entries : List ForkEntry) :
    (mainRun o w0 entries).log = (runEntries o (checkoutWorld o w0) entries).log := by
  cases h : (runEntries o (checkoutWorld o w0) entries).aborted with
  | true => rw [mainRun_aborted_eq o w0 entries h]
  | false =>
    by_cases hu : (runEntries o (checkoutWorld o w0) entries).updates = []
    · rw [mainRun_noop_eq o w0 entries h hu]
    · rw [mainRun_publish_eq o w0 entries h hu]

theorem ensure_remote_trace_no_publish (m : List (String × String)) (r u : String) :
    ∀ c ∈ (ensure_remote m r u).2, isPublishCmd c = false := by
  intro c hc
  rcases h : lookupStr m r with _ | c0
  · simp only [ensure_remote, h, List.mem_cons, List.not_mem_nil, or_false] at hc
    rcases hc with rfl | rfl <;> rfl
  · by_cases hc0 : c0 = u
    · simp only [ensure_remote, h, hc0, if_true, List.mem_cons, List.not_mem_nil,
        or_false] at hc
      rw [hc]
      rfl
    · simp only [ensure_remote, h, hc0, if_false, List.mem_cons, List.not_mem_nil,
        or_false] at hc
      rcases hc with rfl | rfl <;> rfl

theorem processEntry_trace_no_publish (o : GitOracle) (w : World) (e : ForkEntry)
    (p : String) :
    ∀ c ∈ (processEntry o w e p).trace, isPublishCmd c = false := by
  intro c hc
  rcases hf : o.fetchTip (sanitize_remote_name e.name) e.default_branch with _ | tip
  · rw [processEntry_fetchFailed_eq o w e p hf] at hc
    rcases List.mem_append.mp hc with h1 | h1
    · exact ensure_remote_trace_no_publish _ _ _ c h1
    · simp only [List.mem_cons, List.not_mem_nil, or_false] at h1
      rw [h1]
      rfl
  · cases hex : pathExists w.tree (slashParts p) with
    | false =>
      rw [processEntry_add_eq o w e p tip hf hex, finalizeEntry_trace_eq] at hc
      rcases List.mem_append.mp hc with h1 | h1
      · rcases List.mem_append.mp h1 with h2 | h2
        · rcases List.mem_append.mp h2 with h3 | h3
          · exact ensure_remote_trace_no_publish _ _ _ c h3
          · simp only [List.mem_cons, List.not_mem_nil, or_false] at h3
            rcases h3 with rfl | rfl <;> rfl
        · simp only [List.mem_cons, List.not_mem_nil, or_false] at h2
          rw [h2]
          rfl
      · simp only [List.mem_cons, List.not_mem_nil, or_false] at h1
        rw [h1]
        rfl
    | true =>
      rcases hp : o.pullOutcome p (sanitize_remote_name e.name) e.default_branch with
        files | cf
      · rw [processEntry_clean_eq o w e p tip files hf hex hp, finalizeEntry_trace_eq] at hc
        rcases List.mem_append.mp hc with h1 | h1
        · rcases List.mem_append.mp h1 with h2 | h2
          · rcases List.mem_append.mp h2 with h3 | h3
            · exact ensure_remote_trace_no_publish _ _ _ c h3
            · simp only [List.mem_cons, List.not_mem_nil, or_false] at h3
              rcases h3 with rfl | rfl <;> rfl
          · simp only [List.mem_cons, List.not_mem_nil, or_false] at h2
            rw [h2]
            rfl
        · simp only [List.mem_cons, List.not_mem_nil, or_false] at h1
          rw [h1]
          rfl
      · rw [processEntry_conflict_eq o w e p tip cf hf hex hp] at hc
        rcases List.mem_append.mp hc with h1 | h1
        · rcases List.mem_append.mp h1 with h2 | h2
          · exact ensure_remote_trace_no_publish _ _ _ c h2
          · simp only [List.mem_cons, List.not_mem_nil, or_false] at h2
            rcases h2 with rfl | rfl <;> rfl
        · simp only [List.mem_cons, List.not_mem_nil, or_false] at h1
          rw [h1]
          rfl

theorem runEntries_trace_no_publish (o : GitOracle) :
    ∀ (entries : List ForkEntry) (w : World),
      ∀ c ∈ (runEntries o w entries).trace, isPublishCmd c = false := by
  intro entries
  induction entries with
  | nil => intro w c hc; cases hc
  | cons e rest ih =>
    intro w c hc
    rcases hpp : e.prefixPath with msg | p
    · simp only [runEntries, hpp] at hc
      cases hc
    · simp only [runEntries, hpp] at hc
      rcases List.mem_append.mp hc with h1 | h1
      · exact processEntry_trace_no_publish o w e p c h1
      · exact ih _ c h1

theorem runEntries_log_entries (o : GitOracle) :
    ∀ (entries : List ForkEntry) (w : World),
      (∀ e ∈ entries, exceptOk e.prefixPath = true) →
      (runEntries o w entries).log.map (fun l => l.entry) = entries := by
  intro entries
  induction entries with
  | nil => intro w _; rfl
  | cons e rest ih =>
    intro w h
    rcases hpp : e.prefixPath with msg | p
    · have := h e (by simp)
      rw [hpp] at this
      cases this
    · simp only [runEntries, hpp, List.map_cons]
      rw [ih _ (fun x hx => h x (List.mem_cons_of_mem _ hx))]

theorem processEntry_conflicted_world (o : GitOracle) (w : World) (e : ForkEntry)
    (p : String) (h : (processEntry o w e p).tag = StepTag.conflicted) :
    (processEntry o w e p).world.mergeInProgress = true
    ∧ (processEntry o w e p).world.head = w.head := by
  rcases hf : o.fetchTip (sanitize_remote_name e.name) e.default_branch with _ | tip
  · rw [processEntry_fetchFailed_eq o w e p hf] at h
    exact StepTag.noConfusion h
  · cases hex : pathExists w.tree (slashParts p) with
    | false =>
      rw [processEntry_add_eq o w e p tip hf hex] at h
      obtain ⟨b, hb⟩ := finalizeEntry_tag_eq o _ e (slashParts p) tip _
      rw [hb] at h
      exact StepTag.noConfusion h
    | true =>
      rcases hp : o.pullOutcome p (sanitize_remote_name e.name) e.default_branch with
        files | cf
      · rw [processEntry_clean_eq o w e p tip files hf hex hp] at h
        obtain ⟨b, hb⟩ := finalizeEntry_tag_eq o _ e (slashParts p) tip _
        rw [hb] at h
        exact StepTag.noConfusion h
      · rw [processEntry_conflict_eq o w e p tip cf hf hex hp]
        exact ⟨rfl, rfl⟩

theorem runEntries_log_conflict (o : GitOracle) :
    ∀ (entries : List ForkEntry) (w : World),
      ∀ l ∈ (runEntries o w entries).log, l.tag = StepTag.conflicted →
        (l.after.mergeInProgress = true ∧ l.after.head = l.before.head) := by
  intro entries
  induction entries with
  | nil => intro w l hl; cases hl
  | cons e rest ih =>
    intro w l hl
    rcases hpp : e.prefixPath with msg | p
    · simp only [runEntries, hpp] at hl
      cases hl
    · simp only [runEntries, hpp, List.mem_cons] at hl
      rcases hl with hl | hl
      · intro htag
        subst hl
        exact processEntry_conflicted_world o w e p htag
      · exact ih _ l hl

/-- Claim C1 amended: a conflicted squashed subtree pull for entry i does
not stop the batch — every entry of the registry (all of whose prefixes
derive) is still processed, in order — but the working tree is not rolled
back: the batch loop issues no cleanup after the failed pull, so the entry
is left with the merge in progress (and nothing committed: HEAD is exactly
what it was before the entry started). -/
theorem claim1_amended (o : GitOracle) (w0 : World) (entries : List ForkEntry)
    (h : entries.all (fun e => exceptOk e.prefixPath) = true) :
    (mainRun o w0 entries).log.map (fun l => l.entry) = entries
    ∧ ∀ l ∈ (mainRun o w0 entries).log, l.tag = StepTag.conflicted →
        (l.after.mergeInProgress = true ∧ l.after.head = l.before.head) := by
  rw [mainRun_log_eq]
  constructor
  · exact runEntries_log_entries o entries _ (by
      rw [List.all_eq_true] at h
      exact h)
  · exact runEntries_log_conflict o entries _

/-- Witness for claim C1's amended theorem on the concrete conflicted
batch. -/
theorem claim1_witness :
    [exEntry1, exEntry2].all (fun e => exceptOk e.prefixPath) = true
    ∧ ((mainRun exOracle exWorld [exEntry1, exEntry2]).log.map (fun l => l.entry)
        = [exEntry1, exEntry2]
      ∧ ∀ l ∈ (mainRun exOracle exWorld [exEntry1, exEntry2]).log,
          l.tag = StepTag.conflicted →
          (l.after.mergeInProgress = true ∧ l.after.head = l.before.head)) :=
  ⟨by decide, claim1_amended exOracle exWorld [exEntry1, exEntry2] (by decide)⟩

/-- Claim C2 amended: when the aggregated changed-set is empty the
publisher stages, commits and pushes nothing; the update branch, however,
is created (checkout -B) unconditionally at the start of every run, before
the changed-set is known, so the branch part of the claim does not hold. -/
theorem claim2_amended (o : GitOracle) (w0 : World) (entries : List ForkEntry)
    (h : (mainRun o w0 entries).updates = []) :
    (mainRun o w0 entries).trace.all (fun c => !(isPublishCmd c)) = true
    ∧ Cmd.checkoutB (updateBranchName o) o.branchBase ∈ (mainRun o w0 entries).trace := by
  cases ha : (runEntries o (checkoutWorld o w0) entries).aborted with
  | true =>
    rw [mainRun_aborted_eq o w0 entries ha]
    refine ⟨?_, by simp⟩
    rw [List.all_eq_true]
    intro c hc
    rw [Bool.not_eq_true']
    rcases List.mem_cons.mp hc with rfl | h1
    · rfl
    · exact runEntries_trace_no_publish o entries _ c h1
  | false =>
    by_cases hu : (runEntries o (checkoutWorld o w0) entries).updates = []
    · rw [mainRun_noop_eq o w0 entries ha hu]
      refine ⟨?_, by simp⟩
      rw [List.all_eq_true]
      intro c hc
      rw [Bool.not_eq_true']
      rcases List.mem_cons.mp hc with rfl | h1
      · rfl
      · exact runEntries_trace_no_publish o entries _ c h1
    · exfalso
      rw [mainRun_publish_eq o w0 entries ha hu] at h
      exact hu h

/-- Witness for claim C2's amended theorem on a concrete run with an empty
registry. -/
theorem claim2_witness :
    (mainRun exOracle exWorld []).updates = []
    ∧ ((mainRun exOracle exWorld []).trace.all (fun c => !(isPublishCmd c)) = true
      ∧ Cmd.checkoutB (updateBranchName exOracle) exOracle.branchBase
          ∈ (mainRun exOracle exWorld []).trace) :=
  ⟨by decide, claim2_amended exOracle exWorld [] (by decide)⟩

/-! ### Claims C3 and C4 -/

theorem ensure_remote_trace_cases (m : List (String × String)) (r u : String) :
    ∀ c ∈ (ensure_remote m r u).2,
      c = Cmd.remoteGetUrl r ∨ c = Cmd.remoteSetUrl r u ∨ c = Cmd.remoteAdd r u := by
  intro c hc
  rcases h : lookupStr m r with _ | c0
  · simp only [ensure_remote, h, List.mem_cons, List.not_mem_nil, or_false] at hc
    rcases hc with rfl | rfl
    · exact Or.inl rfl
    · exact Or.inr (Or.inr rfl)
  · by_cases hc0 : c0 = u
    · simp only [ensure_remote, h, hc0, if_true, List.mem_cons, List.not_mem_nil,
        or_false] at hc
      exact Or.inl hc
    · simp only [ensure_remote, h, hc0, if_false, List.mem_cons, List.not_mem_nil,
        or_false] at hc
      rcases hc with rfl | rfl
      · exact Or.inl rfl
      · exact Or.inr (Or.inl rfl)

theorem finalizeEntry_ok_props (o : GitOracle) (w2 : World) (e : ForkEntry) (pc : FPath)
    (tip : String) (tr : List Cmd) (res : UpdateResult)
    (h : (finalizeEntry o w2 e pc tip tr).result = some res) :
    res.upstream_commit = tip
    ∧ fsRead (finalizeEntry o w2 e pc tip tr).world.tree (pc ++ ["UPSTREAM.md"])
        = some (metadataText e res.upstream_commit res.license_note o.now) := by
  rw [finalizeEntry_result_eq, Option.some_inj] at h
  subst h
  exact ⟨rfl, fsRead_fsWrite_self _ _ _⟩

theorem processEntry_conflicted_result (o : GitOracle) (w : World) (e : ForkEntry)
    (p : String) (h : (processEntry o w e p).tag = StepTag.conflicted) :
    (processEntry o w e p).result = none := by
  rcases hf : o.fetchTip (sanitize_remote_name e.name) e.default_branch with _ | tip
  · rw [processEntry_fetchFailed_eq o w e p hf]
  · cases hex : pathExists w.tree (slashParts p) with
    | false =>
      rw [processEntry_add_eq o w e p tip hf hex] at h
      obtain ⟨b, hb⟩ := finalizeEntry_tag_eq o _ e (slashParts p) tip _
      rw [hb] at h
      exact StepTag.noConfusion h
    | true =>
      rcases hp : o.pullOutcome p (sanitize_remote_name e.name) e.default_branch with
        files | cf
      · rw [processEntry_clean_eq o w e p tip files hf hex hp] at h
        obtain ⟨b, hb⟩ := finalizeEntry_tag_eq o _ e (slashParts p) tip _
        rw [hb] at h
        exact StepTag.noConfusion h
      · rw [processEntry_conflict_eq o w e p tip cf hf hex hp]

/-- Claim C3 amended: a provenance record is written exactly for the
entries whose processing completes — when process_entry returns a result,
UPSTREAM.md inside the mirror holds the metadata text, whose lines contain
the upstream identity, and whose recorded revision is the tip the fetch
reached (non-empty whenever the fetch oracle only produces non-empty
revisions).  An entry whose merge ends CONFLICTED aborts before the write
and records no result at all. -/
theorem claim3_amended (o : GitOracle) (w : World) (e : ForkEntry) (p : String) :
    (∀ res, (processEntry o w e p).result = some res →
        (fsRead (processEntry o w e p).world.tree (slashParts p ++ ["UPSTREAM.md"])
            = some (metadataText e res.upstream_commit res.license_note o.now)
          ∧ ("- Upstream repository: https://github.com/" ++ e.upstream)
              ∈ metadataLines e res.upstream_commit res.license_note o.now
          ∧ o.fetchTip (sanitize_remote_name e.name) e.default_branch
              = some res.upstream_commit
          ∧ ((∀ t, o.fetchTip (sanitize_remote_name e.name) e.default_branch = some t →
                t ≠ "") → res.upstream_commit ≠ "")))
    ∧ ((processEntry o w e p).tag = StepTag.conflicted →
        (processEntry o w e p).result = none) := by
  constructor
  · intro res hres
    rcases hf : o.fetchTip (sanitize_remote_name e.name) e.default_branch with _ | tip
    · rw [processEntry_fetchFailed_eq o w e p hf] at hres
      cases hres
    · cases hex : pathExists w.tree (slashParts p) with
      | false =>
        rw [processEntry_add_eq o w e p tip hf hex] at hres ⊢
        obtain ⟨hcommit, hread⟩ := finalizeEntry_ok_props o _ e (slashParts p) tip _ res hres
        refine ⟨hread, by simp [metadataLines], ?_, ?_⟩
        · rw [hcommit]
        · intro hne
          rw [hcommit]
          exact hne tip rfl
      | true =>
        rcases hp : o.pullOutcome p (sanitize_remote_name e.name) e.default_branch with
          files | cf
        · rw [processEntry_clean_eq o w e p tip files hf hex hp] at hres ⊢
          obtain ⟨hcommit, hread⟩ :=
            finalizeEntry_ok_props o _ e (slashParts p) tip _ res hres
          refine ⟨hread, by simp [metadataLines], ?_, ?_⟩
          · rw [hcommit]
          · intro hne
            rw [hcommit]
            exact hne tip rfl
        · rw [processEntry_conflict_eq o w e p tip cf hf hex hp] at hres
          cases hres
  · exact processEntry_conflicted_result o w e p

/-- Witness for claim C3's amended theorem on a concrete clean
initialization. -/
theorem claim3_witness :
    (processEntry exOracle2 exWorld exEntry1 "tools/one").result
      = some { fork := exEntry1, upstream_commit := "c1sha",
               license_note :=
                 "No license file found in upstream; UPSTREAM_LICENSE not created",
               changed := true }
    ∧ fsRead (processEntry exOracle2 exWorld exEntry1 "tools/one").world.tree
        (slashParts "tools/one" ++ ["UPSTREAM.md"])
      = some (metadataText exEntry1 "c1sha"
          "No license file found in upstream; UPSTREAM_LICENSE not created"
          exOracle2.now) :=
  ⟨by decide,
   ((claim3_amended exOracle2 exWorld exEntry1 "tools/one").1
     { fork := exEntry1, upstream_commit := "c1sha",
       license_note := "No license file found in upstream; UPSTREAM_LICENSE not created",
       changed := true }
     (by decide)).1⟩

theorem status_write_metadata_true (L H : FS) (pc : FPath) (md : String)
    (hread : fsRead H (pc ++ ["UPSTREAM.md"]) = none) :
    status_for_prefix_path (fsWrite L (pc ++ ["UPSTREAM.md"]) md) H pc = true := by
  have h1 : (isUnder pc (pc ++ ["UPSTREAM.md"])
      && decide (fsRead H (pc ++ ["UPSTREAM.md"]) ≠ some md)) = true := by
    rw [hread]
    simp [isUnder, isPrefixOf_append_self]
  unfold status_for_prefix_path fsWrite
  rw [List.any_cons]
  simp only [h1, Bool.true_or, Bool.or_eq_true]

/-- Claim C4: an entry whose mirror path does not exist locally is
reconciled through the INITIALIZING path — the squashed `git subtree add`,
never a pull — and, provided the fetch succeeds and the imported upstream
tree does not itself carry a root UPSTREAM.md file, its result has
changed = true (the freshly written metadata file is uncommitted, so the
porcelain status of the prefix is non-empty). -/
theorem claim4_theorem (o : GitOracle) (w : World) (e : ForkEntry) (p : String)
    (tip : String)
    (h0 : pathExists w.tree (slashParts p) = false)
    (h1 : o.fetchTip (sanitize_remote_name e.name) e.default_branch = some tip)
    (h2 : (o.addFiles (sanitize_remote_name e.name) e.default_branch).all
        (fun f => !(f.1 == ["UPSTREAM.md"])) = true) :
    Cmd.subtreeAdd p (sanitize_remote_name e.name) e.default_branch
      ∈ (processEntry o w e p).trace
    ∧ (∀ a b c, Cmd.subtreePull a b c ∉ (processEntry o w e p).trace)
    ∧ ∃ res, (processEntry o w e p).result = some res ∧ res.changed = true := by
  rw [processEntry_add_eq o w e p tip h1 h0]
  refine ⟨?_, ?_, ?_⟩
  · rw [finalizeEntry_trace_eq]
    simp
  · intro a b c hc
    rw [finalizeEntry_trace_eq] at hc
    rcases List.mem_append.mp hc with hx | hx
    · rcases List.mem_append.mp hx with hy | hy
      · rcases List.mem_append.mp hy with hz | hz
        · rcases ensure_remote_trace_cases _ _ _ _ hz with h3 | h3 | h3 <;>
            exact Cmd.noConfusion h3
        · simp only [List.mem_cons, List.not_mem_nil, or_false] at hz
          rcases hz with h3 | h3 <;> exact Cmd.noConfusion h3
      · simp only [List.mem_cons, List.not_mem_nil, or_false] at hy
        exact Cmd.noConfusion hy
    · simp only [List.mem_cons, List.not_mem_nil, or_false] at hx
      exact Cmd.noConfusion hx
  · rw [finalizeEntry_result_eq]
    refine ⟨_, rfl, ?_⟩
    have hread : fsRead
        (placeUnder (slashParts p) (o.addFiles (sanitize_remote_name e.name) e.default_branch)
          ++ removeUnder (slashParts p) w.head)
        (slashParts p ++ ["UPSTREAM.md"]) = none := by
      rw [fsRead_append_of_left_none _ _ _
        (fsRead_placeUnder_none (slashParts p) _ "UPSTREAM.md" h2)]
      exact fsRead_removeUnder_none (slashParts p) _ _
        (by simp [isUnder, isPrefixOf_append_self])
    exact status_write_metadata_true _ _ _ _ hread

/-- Witness for claim C4 on a concrete initialization of a fresh
mirror. -/
theorem claim4_witness :
    (pathExists exWorld.tree (slashParts "tools/one") = false
      ∧ exOracle2.fetchTip (sanitize_remote_name exEntry1.name) exEntry1.default_branch
          = some "c1sha"
      ∧ (exOracle2.addFiles (sanitize_remote_name exEntry1.name) exEntry1.default_branch).all
          (fun f => !(f.1 == ["UPSTREAM.md"])) = true)
    ∧ (Cmd.subtreeAdd "tools/one" (sanitize_remote_name exEntry1.name)
          exEntry1.default_branch ∈ (processEntry exOracle2 exWorld exEntry1 "tools/one").trace
      ∧ (∀ a b c, Cmd.subtreePull a b c
          ∉ (processEntry exOracle2 exWorld exEntry1 "tools/one").trace)
      ∧ ∃ res, (processEntry exOracle2 exWorld exEntry1 "tools/one").result = some res
          ∧ res.changed = true) :=
  ⟨⟨by decide, by decide, by decide⟩,
   claim4_theorem exOracle2 exWorld exEntry1 "tools/one" "c1sha"
     (by decide) (by decide) (by decide)⟩

/-! ### License handling: claim C9 -/

theorem isLicenseChildKey_isUnder {pc k : FPath} (h : isLicenseChildKey pc k = true) :
    isUnder pc k = true := by
  unfold isLicenseChildKey at h
  cases hd : directChild? pc k with
  | none =>
    rw [hd] at h
    cases h
  | some n =>
    unfold directChild? at hd
    by_cases hc : (decide (k.length = pc.length + 1) && pc.isPrefixOf k) = true
    · rw [Bool.and_eq_true] at hc
      exact hc.2
    · rw [if_neg hc] at hd
      cases hd

theorem directChild?_lastName {pc k : FPath} {n : String}
    (h : directChild? pc k = some n) : lastName k = n := by
  unfold directChild? at h
  by_cases hc : (decide (k.length = pc.length + 1) && pc.isPrefixOf k) = true
  · rw [if_pos hc] at h
    rw [lastName, h]
    rfl
  · rw [if_neg hc] at h
    cases h

theorem findLicenseIn_some_spec :
    ∀ (t : FS) (pc k : FPath), findLicenseIn t pc = some k →
      isLicenseChildKey pc k = true ∧ ∃ c, fsRead t k = some c := by
  intro t
  induction t with
  | nil =>
    intro pc k h
    cases h
  | cons f rest ih =>
    intro pc k h
    by_cases hf : isLicenseChildKey pc f.1 = true
    · rw [findLicenseIn, if_pos hf, Option.some_inj] at h
      subst h
      refine ⟨hf, f.2, ?_⟩
      rw [fsRead, if_pos rfl]
    · rw [findLicenseIn, if_neg hf] at h
      obtain ⟨hk, c, hc⟩ := ih pc k h
      refine ⟨hk, c, ?_⟩
      rw [fsRead, if_neg ?_]
      · exact hc
      · intro he
        rw [he] at hf
        exact hf hk

theorem findLicenseIn_isSome_of_any :
    ∀ (t : FS) (pc : FPath), t.any (fun f => isLicenseChildKey pc f.1) = true →
      ∃ k, findLicenseIn t pc = some k := by
  intro t
  induction t with
  | nil =>
    intro pc h
    cases h
  | cons f rest ih =>
    intro pc h
    by_cases hf : isLicenseChildKey pc f.1 = true
    · exact ⟨f.1, by rw [findLicenseIn, if_pos hf]⟩
    · rw [List.any_cons, Bool.or_eq_true] at h
      rcases h with h1 | h1
      · exact absurd h1 hf
      · obtain ⟨k, hk⟩ := ih pc h1
        exact ⟨k, by rw [findLicenseIn, if_neg hf]; exact hk⟩

theorem findLicenseIn_none_of_all :
    ∀ (t : FS) (pc : FPath), t.all (fun f => !(isLicenseChildKey pc f.1)) = true →
      findLicenseIn t pc = none := by
  intro t
  induction t with
  | nil =>
    intro pc _
    rfl
  | cons f rest ih =>
    intro pc h
    rw [List.all_cons, Bool.and_eq_true, Bool.not_eq_true'] at h
    have hf : ¬ isLicenseChildKey pc f.1 = true := by
      simp [h.1]
    rw [findLicenseIn, if_neg hf]
    exact ih pc h.2

theorem pathExists_of_any_license (t : FS) (pc : FPath)
    (h : t.any (fun f => isLicenseChildKey pc f.1) = true) : pathExists t pc = true := by
  unfold pathExists
  rw [List.any_eq_true] at h ⊢
  obtain ⟨f, hf, hk⟩ := h
  exact ⟨f, hf, isLicenseChildKey_isUnder hk⟩

/-- Claim C9 amended: when a conventional license file (case-insensitively
named license, license.txt, license.md, copying or copyright) exists at
the mirror's top level, its content is copied to UPSTREAM_LICENSE and the
note records the sync; when none exists, any stale UPSTREAM_LICENSE is
removed and the note records that no license file was found; but no
verified flag is ever set to true — the registry's
subtree_license_verified field is initialized to false by entry
construction and no script operation updates it. -/
theorem claim9_amended (tree : FS) (pc : FPath) :
    ((tree.any (fun f => isLicenseChildKey pc f.1)) = true →
        ∃ k n c, directChild? pc k = some n
          ∧ licenseCandidates.contains (lowerStr n) = true
          ∧ fsRead tree k = some c
          ∧ fsRead (licenseStep tree pc).1 (pc ++ ["UPSTREAM_LICENSE"]) = some c
          ∧ (licenseStep tree pc).2
              = "License synced from " ++ n ++ " to UPSTREAM_LICENSE")
    ∧ ((tree.all (fun f => !(isLicenseChildKey pc f.1))) = true →
        fsRead (licenseStep tree pc).1 (pc ++ ["UPSTREAM_LICENSE"]) = none
        ∧ (licenseStep tree pc).2
            = "No license file found in upstream; UPSTREAM_LICENSE not created")
    ∧ (∀ (info : RepoInfo) (upstream_fullname : String)
        (source subtree local_branch : Option String) (addedAt : String),
        recordGet? (build_entry_from_upstream info upstream_fullname source subtree
          local_branch addedAt) "subtree_license_verified"
          = some (JValue.bool false)) := by
  refine ⟨?_, ?_, ?_⟩
  · intro h
    have hpe := pathExists_of_any_license tree pc h
    obtain ⟨k, hk⟩ := findLicenseIn_isSome_of_any tree pc h
    obtain ⟨hkey, c, hc⟩ := findLicenseIn_some_spec tree pc k hk
    have hfl : find_license tree pc = some k := by
      unfold find_license
      rw [if_pos hpe]
      exact hk
    unfold isLicenseChildKey at hkey
    cases hd : directChild? pc k with
    | none =>
      rw [hd] at hkey
      cases hkey
    | some n =>
      rw [hd] at hkey
      refine ⟨k, n, c, hd, hkey, hc, ?_, ?_⟩
      · simp only [licenseStep, hfl, copy_license, hc]
        exact fsRead_fsWrite_self _ _ _
      · simp only [licenseStep, hfl, copy_license, hc]
        rw [directChild?_lastName hd]
  · intro h2
    have hfl : find_license tree pc = none := by
      unfold find_license
      by_cases hpe : pathExists tree pc = true
      · rw [if_pos hpe]
        exact findLicenseIn_none_of_all tree pc h2
      · rw [if_neg hpe]
    constructor
    · simp only [licenseStep, hfl, copy_license]
      exact fsRead_fsErase_self _ _
    · simp only [licenseStep, hfl, copy_license]
  · intro info upstream_fullname source subtree local_branch addedAt
    rfl

/-- The GitHub repository information used by claim C9's concrete
instances. -/
def exInfo : RepoInfo :=
  { html_url := "https://github.com/alice/one", description := "demo repo",
    license_name := "MIT", license_html := "https://github.com/alice/one/blob/main/LICENSE",
    default_branch := "main", owner := "alice", name := "one" }

/-- A mirror whose top level carries a conventional license file. -/
def exLicTree : FS := [(["tools", "one", "LICENSE"], "MIT license text")]

/-- Claim C9 counterexample: for a mirror whose top level has a LICENSE
file, the license step copies it to UPSTREAM_LICENSE and records the
synced note — yet the registry's license verified flag remains false: the
only flag of that kind in the system, subtree_license_verified, is
constructed false and is never set to true by any operation. -/
theorem claim9_counterexample :
    (licenseStep exLicTree ["tools", "one"]).2
      = "License synced from LICENSE to UPSTREAM_LICENSE"
    ∧ fsRead (licenseStep exLicTree ["tools", "one"]).1
        ["tools", "one", "UPSTREAM_LICENSE"] = some "MIT license text"
    ∧ recordGet? (build_entry_from_upstream exInfo "alice/one" (some "OurITRes/one")
        (some "tools/one") (some "main") "2025-10-12T00:00:00Z")
        "subtree_license_verified" = some (JValue.bool false) := by
  decide

/-- Witness for claim C9's amended theorem on a mirror with a LICENSE
file. -/
theorem claim9_witness :
    exLicTree.any (fun f => isLicenseChildKey ["tools", "one"] f.1) = true
    ∧ ∃ k n c, directChild? ["tools", "one"] k = some n
        ∧ licenseCandidates.contains (lowerStr n) = true
        ∧ fsRead exLicTree k = some c
        ∧ fsRead (licenseStep exLicTree ["tools", "one"]).1
            (["tools", "one"] ++ ["UPSTREAM_LICENSE"]) = some c
        ∧ (licenseStep exLicTree ["tools", "one"]).2
            = "License synced from " ++ n ++ " to UPSTREAM_LICENSE" :=
  ⟨by decide, (claim9_amended exLicTree ["tools", "one"]).1 (by decide)⟩

/-- Witness for claim C10 on concrete migrate_to URLs: a URL with
components after the marker derives its prefix, a URL ending at the marker
raises, and a URL with an empty path raises. -/
theorem claim10_witness :
    ForkEntry.prefixPath exEntry1 = Except.ok (joinParts "/" ["tools", "one"])
    ∧ ForkEntry.prefixPath exEntryBad
        = Except.error ("Cannot derive prefix from migrate_to=" ++ exEntryBad.migrate_to)
    ∧ ForkEntry.prefixPath exEntryEmptyPath
        = Except.error
            ("Cannot derive prefix from migrate_to=" ++ exEntryEmptyPath.migrate_to) :=
  ⟨((claim10_theorem exEntry1).2.2 ["OurITRes"] ["tools", "one"]
      (by decide) (by decide)).2 (by decide),
   ((claim10_theorem exEntryBad).2.2 ["OurITRes"] []
      (by decide) (by decide)).1 rfl,
   (claim10_theorem exEntryEmptyPath).2.1 (by decide)⟩

end AllForkedRepos
